import Mathlib

/-!
# Verification of the Marvel Rivals team-composition analyzer

A shallow embedding of the scoring and combinatorial assignment-search
engine of `analyze_team.py`.  Python floats are modelled by `ℚ`, Python
dicts by association lists with insertion-order semantics
(`dictInsert`), Python `sorted(key, reverse=True)` by the stable
structural `List.insertionSort` with the flipped comparator (stable
sorts agree, so this is observably Python's sort), and the crash mode of the
search loop (an out-of-range tuple index) by an explicit
`AssignOutcome.indexError` constructor propagated as `Except.error`.
-/

namespace Rivals

/-- The static hero → role classification table (`HERO_ROLES` in
`analyze_team.py`), including aliases, in source order. -/
def HERO_ROLES : List (String × String) := [
  ("Angela", "Vanguard"),
  ("Bruce Banner", "Vanguard"),
  ("Hulk", "Vanguard"),
  ("Captain America", "Vanguard"),
  ("Doctor Strange", "Vanguard"),
  ("Groot", "Vanguard"),
  ("Magneto", "Vanguard"),
  ("Peni Parker", "Vanguard"),
  ("Thor", "Vanguard"),
  ("Venom", "Vanguard"),
  ("The Thing", "Vanguard"),
  ("Thing", "Vanguard"),
  ("Black Panther", "Duelist"),
  ("Black Widow", "Duelist"),
  ("Blade", "Duelist"),
  ("Daredevil", "Duelist"),
  ("Hawkeye", "Duelist"),
  ("Hela", "Duelist"),
  ("Human Torch", "Duelist"),
  ("Iron Fist", "Duelist"),
  ("Iron Man", "Duelist"),
  ("Magik", "Duelist"),
  ("Mister Fantastic", "Duelist"),
  ("Mr. Fantastic", "Duelist"),
  ("Moon Knight", "Duelist"),
  ("Namor", "Duelist"),
  ("Phoenix", "Duelist"),
  ("Psylocke", "Duelist"),
  ("Scarlet Witch", "Duelist"),
  ("Spider-Man", "Duelist"),
  ("Spiderman", "Duelist"),
  ("Squirrel Girl", "Duelist"),
  ("Star-Lord", "Duelist"),
  ("Storm", "Duelist"),
  ("The Punisher", "Duelist"),
  ("Punisher", "Duelist"),
  ("Winter Soldier", "Duelist"),
  ("Wolverine", "Duelist"),
  ("Emma Frost", "Duelist"),
  ("Rogue", "Duelist"),
  ("Adam Warlock", "Strategist"),
  ("Cloak & Dagger", "Strategist"),
  ("Cloak and Dagger", "Strategist"),
  ("Invisible Woman", "Strategist"),
  ("Jeff the Land Shark", "Strategist"),
  ("Jeff The Land Shark", "Strategist"),
  ("Jeff", "Strategist"),
  ("Loki", "Strategist"),
  ("Luna Snow", "Strategist"),
  ("Mantis", "Strategist"),
  ("Rocket Raccoon", "Strategist"),
  ("Rocket", "Strategist"),
  ("Gambit", "Strategist"),
  ("Ultron", "Strategist")]

/-- `HERO_ROLES.get(hero_name, "Unknown")`. -/
def heroRole (name : String) : String :=
  match HERO_ROLES.find? (fun e => e.1 = name) with
  | some e => e.2
  | none => "Unknown"

/-- Aggregated stats for a hero played by a specific player
(dataclass `HeroStats`). -/
structure HeroStats where
  hero_name : String
  role : String
  games_played : Nat := 0
  wins : Nat := 0
  losses : Nat := 0
  total_kills : Nat := 0
  total_deaths : Nat := 0
  total_assists : Nat := 0
  total_damage : ℚ := 0
  total_healing : ℚ := 0
  total_damage_blocked : ℚ := 0
  total_time_played_ms : Nat := 0
  mvp_count : Nat := 0
  svp_count : Nat := 0
deriving DecidableEq, Repr

namespace HeroStats

/-- `wins / games_played if games_played > 0 else 0.0` -/
def win_rate (h : HeroStats) : ℚ :=
  if 0 < h.games_played then (h.wins : ℚ) / (h.games_played : ℚ) else 0

/-- `(kills + assists) / max(deaths, 1)` -/
def kda (h : HeroStats) : ℚ :=
  ((h.total_kills : ℚ) + (h.total_assists : ℚ)) / ((max h.total_deaths 1 : Nat) : ℚ)

/-- `total_damage / minutes if minutes > 0 else 0.0` where
`minutes = total_time_played_ms / 60000`. -/
def avg_damage_per_min (h : HeroStats) : ℚ :=
  let minutes : ℚ := (h.total_time_played_ms : ℚ) / 60000
  if 0 < minutes then h.total_damage / minutes else 0

/-- `total_healing / minutes if minutes > 0 else 0.0` -/
def avg_healing_per_min (h : HeroStats) : ℚ :=
  let minutes : ℚ := (h.total_time_played_ms : ℚ) / 60000
  if 0 < minutes then h.total_healing / minutes else 0

/-- `total_damage_blocked / minutes if minutes > 0 else 0.0` -/
def avg_blocked_per_min (h : HeroStats) : ℚ :=
  let minutes : ℚ := (h.total_time_played_ms : ℚ) / 60000
  if 0 < minutes then h.total_damage_blocked / minutes else 0

/-- The composite performance score, recomputed from the aggregate
fields on every use (property `performance_score`). -/
def performance_score (h : HeroStats) : ℚ :=
  let base_score := h.win_rate * 40 + min h.kda 5 / 5 * 30
  let role_score :=
    if h.role = "Vanguard" then min (h.avg_blocked_per_min / 3000) 1 * 30
    else if h.role = "Strategist" then min (h.avg_healing_per_min / 2000) 1 * 30
    else min (h.avg_damage_per_min / 1500) 1 * 30
  let mvp_bonus := ((h.mvp_count : ℚ) + (h.svp_count : ℚ)) / ((max h.games_played 1 : Nat) : ℚ) * 5
  base_score + role_score + mvp_bonus

end HeroStats

/-- Complete profile of a player's hero pool (dataclass `PlayerProfile`);
the Python dict `hero_stats` is an insertion-ordered association list
with unique keys. -/
structure PlayerProfile where
  player_name : String
  hero_stats : List (String × HeroStats) := []
  total_games : Nat := 0
  total_wins : Nat := 0
deriving DecidableEq, Repr

/-- The descending-score comparison used by Python
`sorted(key=lambda x: x[1].performance_score, reverse=True)`.
`insertionSort` with this total reflexive relation is the stable
descending sort, hence observably identical to Python's sort. -/
def scoreDesc (a b : String × HeroStats) : Prop :=
  b.2.performance_score ≤ a.2.performance_score

instance : DecidableRel scoreDesc :=
  fun _ _ => inferInstanceAs (Decidable (_ ≤ _))

namespace PlayerProfile

/-- `overall_win_rate` -/
def overall_win_rate (p : PlayerProfile) : ℚ :=
  if 0 < p.total_games then (p.total_wins : ℚ) / (p.total_games : ℚ) else 0

/-- `get_best_heroes_by_role`: filter to the role with enough games and
stable-sort descending by performance score. -/
def get_best_heroes_by_role (p : PlayerProfile) (role : String) (min_games : Nat) :
    List (String × HeroStats) :=
  (p.hero_stats.filter
      (fun e => e.2.role = role ∧ min_games ≤ e.2.games_played)).insertionSort scoreDesc

/-- `get_top_heroes`: same filter without the role restriction, top `n`. -/
def get_top_heroes (p : PlayerProfile) (n : Nat) (min_games : Nat) :
    List (String × HeroStats) :=
  ((p.hero_stats.filter (fun e => min_games ≤ e.2.games_played)).insertionSort
    scoreDesc).take n

end PlayerProfile

/-- Python dict assignment `m[k] = v`: overwrite in place when the key is
present (keeping its position), otherwise append at the end. -/
def dictInsert {α : Type} (m : List (String × α)) (k : String) (v : α) :
    List (String × α) :=
  if m.any (fun e => e.1 = k) then m.map (fun e => if e.1 = k then (k, v) else e)
  else m ++ [(k, v)]

/-- The per-player option dict built by `find_optimal_compositions`:
one `(hero, score)` list per known role. -/
structure RoleOptions where
  vanguard : List (String × ℚ) := []
  duelist : List (String × ℚ) := []
  strategist : List (String × ℚ) := []
deriving DecidableEq, Repr

/-- `options[role]` lookup; the dict has exactly the three known roles as
keys, so any other role string has no options. -/
def RoleOptions.get (o : RoleOptions) (role : String) : List (String × ℚ) :=
  if role = "Vanguard" then o.vanguard
  else if role = "Duelist" then o.duelist
  else if role = "Strategist" then o.strategist
  else []

/-- The top-3-per-role seed of the option lists:
`for hero_name, stats in heroes[:3]: options[role].append(...)`. -/
def top3Options (p : PlayerProfile) (min_games : Nat) (role : String) :
    List (String × ℚ) :=
  ((p.get_best_heroes_by_role role min_games).take 3).map
    (fun e => (e.1, e.2.performance_score))

/-- One step of the `get_top_heroes(5, min_games)` loop: append the hero
to its role's list when the role is a known key and the `(hero, score)`
pair is not already present. -/
def addTopHero (o : RoleOptions) (e : String × HeroStats) : RoleOptions :=
  let pr : String × ℚ := (e.1, e.2.performance_score)
  if e.2.role = "Vanguard" then
    if pr ∈ o.vanguard then o else { o with vanguard := o.vanguard ++ [pr] }
  else if e.2.role = "Duelist" then
    if pr ∈ o.duelist then o else { o with duelist := o.duelist ++ [pr] }
  else if e.2.role = "Strategist" then
    if pr ∈ o.strategist then o else { o with strategist := o.strategist ++ [pr] }
  else o

/-- The complete option-set construction for one player
(lines 274-282 of `analyze_team.py`). -/
def buildPlayerOptions (p : PlayerProfile) (min_games : Nat) : RoleOptions :=
  let init : RoleOptions :=
    { vanguard := top3Options p min_games "Vanguard"
      duelist := top3Options p min_games "Duelist"
      strategist := top3Options p min_games "Strategist" }
  (p.get_top_heroes 5 min_games).foldl addTopHero init

/-- The `player_options` dict keyed by player name. -/
def optionsMap (players : List PlayerProfile) (min_games : Nat) :
    List (String × RoleOptions) :=
  players.foldl (fun m p => dictInsert m p.player_name (buildPlayerOptions p min_games)) []

/-- `player_options[name]` lookup. -/
def lookupOptions (m : List (String × RoleOptions)) (name : String) : RoleOptions :=
  match m.find? (fun e => e.1 = name) with
  | some e => e.2
  | none => {}

/-- A target role distribution (one entry of `target_comps`), with the
keys in dict insertion order Vanguard, Duelist, Strategist. -/
structure TargetComp where
  vanguard : Nat
  duelist : Nat
  strategist : Nat
deriving DecidableEq, Repr

/-- The five target compositions tried by `find_optimal_compositions`. -/
def target_comps : List TargetComp :=
  [⟨2, 2, 1⟩, ⟨1, 2, 2⟩, ⟨2, 1, 2⟩, ⟨1, 3, 1⟩, ⟨2, 1, 2⟩]

/-- `roles_needed`: each role label repeated by its target count. -/
def rolesNeeded (t : TargetComp) : List String :=
  List.replicate t.vanguard "Vanguard" ++ List.replicate t.duelist "Duelist" ++
    List.replicate t.strategist "Strategist"

/-- All ways to insert `a` into a list (helper for the structural
permutation generator). -/
def insertions (a : String) : List String → List (List String)
  | [] => [[a]]
  | b :: l => (a :: b :: l) :: (insertions a l).map (fun m => b :: m)

/-- A structural model of `itertools.permutations`: every permutation of
the input (with repetitions when elements repeat). -/
def permsOf : List String → List (List String)
  | [] => [[]]
  | a :: l => (permsOf l).flatMap (insertions a)

/-- `set(permutations(roles_needed))`: the distinct role orderings. -/
def distinctOrderings (t : TargetComp) : List (List String) :=
  (permsOf (rolesNeeded t)).dedup

/-- `hero_name not in used_heroes`: the predicate of the greedy
first-fit pick. -/
def heroUnused (used : List String) (o : String × ℚ) : Bool :=
  !(used.contains o.1)

/-- Outcome of processing one role ordering: an out-of-range
`role_assignment[i]` access (a Python `IndexError`), an invalid ordering
(some player has no unused qualifying hero), or a valid candidate. -/
inductive AssignOutcome where
  | indexError : AssignOutcome
  | invalid : AssignOutcome
  | ok (total_score : ℚ) (assignment : List (String × String × String)) : AssignOutcome
deriving DecidableEq, Repr

/-- The greedy inner loop of `find_best_assignment`: visit the players in
the fixed enumeration order, look up `role_assignment[i]`, take the first
option whose hero is not yet used, and accumulate the score and the
assignment dict (entries are `(player, hero, role)`). -/
def assignLoop (opts : List (String × RoleOptions)) (ordering : List String) :
    List String → Nat → List String → List (String × String × String) → ℚ →
      AssignOutcome
  | [], _, _, asn, total => .ok total asn
  | pname :: rest, i, used, asn, total =>
    match ordering[i]? with
    | none => .indexError
    | some role =>
      match ((lookupOptions opts pname).get role).find? (heroUnused used) with
      | none => .invalid
      | some best =>
        assignLoop opts ordering rest (i + 1) (best.1 :: used)
          (dictInsert asn pname (best.1, role)) (total + best.2)

/-- The valid candidates collected over the distinct orderings of one
target composition (order fixed by our deterministic enumeration of the
Python set). -/
def okCands (players : List PlayerProfile) (player_options : List (String × RoleOptions))
    (target_comp : TargetComp) : List (ℚ × List (String × String × String)) :=
  (distinctOrderings target_comp).filterMap (fun o =>
    match assignLoop player_options o (players.map (fun p => p.player_name)) 0 [] [] 0 with
    | .ok t a => some (t, a)
    | _ => none)

/-- `find_best_assignment`: a Python `IndexError` raised by any ordering
aborts the whole call, otherwise the valid candidates are returned. -/
def find_best_assignment (players : List PlayerProfile)
    (player_options : List (String × RoleOptions)) (target_comp : TargetComp) :
    Except Unit (List (ℚ × List (String × String × String))) :=
  if (distinctOrderings target_comp).any (fun o =>
      assignLoop player_options o (players.map (fun p => p.player_name)) 0 [] [] 0
        = .indexError) then
    .error ()
  else
    .ok (okCands players player_options target_comp)

/-- The pre-sort candidate pool of `find_optimal_compositions`: the
five templates' valid candidates concatenated in template order. -/
def candidatePool (players : List PlayerProfile) (min_games : Nat) :
    List (ℚ × List (String × String × String)) :=
  okCands players (optionsMap players min_games) ⟨2, 2, 1⟩ ++
    okCands players (optionsMap players min_games) ⟨1, 2, 2⟩ ++
    okCands players (optionsMap players min_games) ⟨2, 1, 2⟩ ++
    okCands players (optionsMap players min_games) ⟨1, 3, 1⟩ ++
    okCands players (optionsMap players min_games) ⟨2, 1, 2⟩

/-- Descending order on candidates by total score, the key of the final
`compositions.sort(key=lambda x: x[0], reverse=True)`. -/
def candDesc (a b : ℚ × List (String × String × String)) : Prop :=
  b.1 ≤ a.1

instance : DecidableRel candDesc :=
  fun _ _ => inferInstanceAs (Decidable (_ ≤ _))

/-- `find_optimal_compositions`: build the option dict, extend the
candidate list template by template (propagating a crash), then
stable-sort descending by total score and keep the top `top_n`. -/
def find_optimal_compositions (players : List PlayerProfile)
    (min_games : Nat := 3) (top_n : Nat := 5) :
    Except Unit (List (ℚ × List (String × String × String))) := do
  let player_options := optionsMap players min_games
  let compositions ← target_comps.foldlM
    (fun acc t => do
      let comp_results ← find_best_assignment players player_options t
      pure (acc ++ comp_results)) []
  pure ((compositions.insertionSort candDesc).take top_n)

/-! ## The aggregation stage (`extract_player_stats`) -/

/-- One entry of a segment's `metadata.heroes` array; `name = none`
models a missing or unparseable `name` field. -/
structure HeroEntry where
  name : Option String
deriving DecidableEq, Repr

/-- One match segment, restricted to the fields `extract_player_stats`
reads.  `platformUserHandle = none` models a missing handle. -/
structure MatchSegment where
  segType : String
  platformUserHandle : Option String
  heroes : List HeroEntry
  result : String
  isMvp : Bool
  isSvp : Bool
  kills : Nat
  deaths : Nat
  assists : Nat
  totalHeroDamage : ℚ
  totalHeroHeal : ℚ
  totalDamageTaken : ℚ
  timePlayed : Nat
deriving DecidableEq, Repr

/-- The player-name discovery pass over the first match: the first
overview segment with a truthy handle wins, else the file-name hint. -/
def findActualName (hint : String) (matchList : List (List MatchSegment)) : String :=
  match matchList with
  | [] => hint
  | first :: _ =>
    match first.find? (fun s =>
        s.segType = "overview" ∧ (s.platformUserHandle.getD "") ≠ "") with
    | some s => s.platformUserHandle.getD ""
    | none => hint

/-- `platform_info.get("platformUserHandle", "").lower() == actual.lower()` -/
def segMatchesPlayer (actual : String) (s : MatchSegment) : Bool :=
  (s.platformUserHandle.getD "").toLower = actual.toLower

/-- Fold one match record into a `HeroStats` aggregate. -/
def updateHeroStats (h : HeroStats) (s : MatchSegment) (is_win : Bool) : HeroStats :=
  { h with
    games_played := h.games_played + 1
    wins := h.wins + (if is_win then 1 else 0)
    losses := h.losses + (if is_win then 0 else 1)
    total_kills := h.total_kills + s.kills
    total_deaths := h.total_deaths + s.deaths
    total_assists := h.total_assists + s.assists
    total_damage := h.total_damage + s.totalHeroDamage
    total_healing := h.total_healing + s.totalHeroHeal
    total_damage_blocked := h.total_damage_blocked + s.totalDamageTaken
    total_time_played_ms := h.total_time_played_ms + s.timePlayed
    mvp_count := h.mvp_count + (if s.isMvp then 1 else 0)
    svp_count := h.svp_count + (if s.isSvp then 1 else 0) }

/-- Process one segment of the aggregation loop of
`extract_player_stats` (lines 205-253 of `analyze_team.py`): skip
non-overview segments, other players' segments, and segments with an
empty `heroes` list; otherwise aggregate under the first hero's name,
defaulting a missing name to "Unknown". -/
def applySegment (actual : String) (p : PlayerProfile) (s : MatchSegment) :
    PlayerProfile :=
  if s.segType ≠ "overview" then p
  else if ¬ segMatchesPlayer actual s then p
  else
    match s.heroes with
    | [] => p
    | h0 :: _ =>
      let hero_name := h0.name.getD "Unknown"
      let role := heroRole hero_name
      let is_win := s.result.toLower = "win"
      let old : HeroStats :=
        match p.hero_stats.find? (fun e => e.1 = hero_name) with
        | some e => e.2
        | none => { hero_name := hero_name, role := role }
      { p with
        hero_stats := dictInsert p.hero_stats hero_name (updateHeroStats old s is_win)
        total_games := p.total_games + 1
        total_wins := p.total_wins + (if is_win then 1 else 0) }

/-- `extract_player_stats`: resolve the player name, then fold every
segment of every match into the profile. -/
def extract_player_stats (matchList : List (List MatchSegment))
    (player_name_hint : String) : PlayerProfile :=
  let actual := findActualName player_name_hint matchList
  matchList.foldl (fun p segs => segs.foldl (applySegment actual) p)
    { player_name := actual }

/-! ## Claims -/

/-- C1: for every `HeroStats h`, `performance_score h` equals
`win_rate h * 40 + min (kda h) 5 / 5 * 30 + role_term h +
(mvp_count + svp_count) / max games_played 1 * 5`, where the role term
is the blocked-per-minute term for Vanguard, the healing-per-minute term
for Strategist, and the damage-per-minute term otherwise; the score is a
pure function of the current aggregate fields (nothing is cached). -/
theorem claim_C1 (h : HeroStats) :
    h.performance_score =
      h.win_rate * 40 + min h.kda 5 / 5 * 30 +
      (if h.role = "Vanguard" then min (h.avg_blocked_per_min / 3000) 1 * 30
       else if h.role = "Strategist" then min (h.avg_healing_per_min / 2000) 1 * 30
       else min (h.avg_damage_per_min / 1500) 1 * 30) +
      ((h.mvp_count : ℚ) + (h.svp_count : ℚ)) / max (h.games_played : ℚ) 1 * 5 := by
  unfold HeroStats.performance_score
  push_cast
  ring

/-- Every result of `insertions a l` is a permutation of `a :: l`. -/
theorem mem_insertions_perm {a : String} :
    ∀ {l m : List String}, m ∈ insertions a l → m.Perm (a :: l)
  | [], m, hm => by
    simp only [insertions, List.mem_singleton] at hm
    simp [hm]
  | b :: l, m, hm => by
    simp only [insertions, List.mem_cons, List.mem_map] at hm
    rcases hm with rfl | ⟨m2, hm2, rfl⟩
    · exact List.Perm.refl _
    · exact ((mem_insertions_perm hm2).cons b).trans (List.Perm.swap a b l)

/-- Every result of `permsOf l` is a permutation of `l`. -/
theorem mem_permsOf_perm :
    ∀ {l m : List String}, m ∈ permsOf l → m.Perm l
  | [], m, hm => by
    simp only [permsOf, List.mem_singleton] at hm
    simp [hm]
  | a :: l, m, hm => by
    simp only [permsOf, List.mem_flatMap] at hm
    obtain ⟨p, hp, hm⟩ := hm
    exact (mem_insertions_perm hm).trans ((mem_permsOf_perm hp).cons a)

theorem rolesNeeded_length (t : TargetComp) :
    (rolesNeeded t).length = t.vanguard + t.duelist + t.strategist := by
  simp only [rolesNeeded, List.length_append, List.length_replicate, Nat.add_assoc]

/-- Every examined role ordering has one slot per role-count unit. -/
theorem mem_distinctOrderings_length {t : TargetComp} {o : List String}
    (h : o ∈ distinctOrderings t) :
    o.length = t.vanguard + t.duelist + t.strategist := by
  have h2 : o ∈ permsOf (rolesNeeded t) := List.mem_dedup.mp h
  rw [(mem_permsOf_perm h2).length_eq, rolesNeeded_length]

set_option maxRecDepth 40000 in
/-- C6: the number of distinct role orderings examined for a template
with role counts `(v, d, s)` summing to 5 is `5! / (v! * d! * s!)`; in
particular every arrangement of counts `(2, 2, 1)` yields 30. -/
theorem claim_C6 (v d s : Nat) (h : v + d + s = 5) :
    (distinctOrderings ⟨v, d, s⟩).length =
      Nat.factorial 5 / (Nat.factorial v * Nat.factorial d * Nat.factorial s) := by
  have hs : s = 5 - v - d := by omega
  subst hs
  have hv : v ≤ 5 := by omega
  have hd : d ≤ 5 := by omega
  revert h
  interval_cases v <;> interval_cases d <;> decide

/-- Witness for C6: the first template's counts `(2, 2, 1)` give exactly
30 distinct orderings. -/
theorem claim_C6_witness : (distinctOrderings ⟨2, 2, 1⟩).length = 30 := by
  have h := claim_C6 2 2 1 (by decide)
  norm_num [Nat.factorial] at h
  exact h

/-- The greedy loop never makes an out-of-range ordering access while
players remain within the ordering's length. -/
theorem assignLoop_ne_indexError (opts : List (String × RoleOptions))
    (ordering : List String) :
    ∀ (ps : List String) (i : Nat) (used : List String)
      (asn : List (String × String × String)) (total : ℚ),
      i + ps.length ≤ ordering.length →
      assignLoop opts ordering ps i used asn total ≠ AssignOutcome.indexError := by
  intro ps
  induction ps with
  | nil =>
    intro i used asn total h
    simp [assignLoop]
  | cons p rest ih =>
    intro i used asn total h
    have hi : i < ordering.length := by
      simp only [List.length_cons] at h; omega
    rcases ho : ordering[i]? with _ | role
    · rw [List.getElem?_eq_none_iff] at ho; omega
    · simp only [assignLoop, ho]
      rcases hf : ((lookupOptions opts p).get role).find? (heroUnused used) with _ | best
      · simp
      · exact ih (i + 1) _ _ _ (by simp only [List.length_cons] at h; omega)

/-- Within the squad-size bound no ordering can raise, so
`find_best_assignment` returns its collected candidates. -/
theorem find_best_assignment_ok (players : List PlayerProfile)
    (opts : List (String × RoleOptions)) (t : TargetComp)
    (h5 : players.length ≤ t.vanguard + t.duelist + t.strategist) :
    find_best_assignment players opts t = .ok (okCands players opts t) := by
  rw [find_best_assignment, if_neg]
  intro hc
  rw [List.any_eq_true] at hc
  obtain ⟨o, ho, hbad⟩ := hc
  rw [decide_eq_true_eq] at hbad
  have hlen := mem_distinctOrderings_length ho
  exact assignLoop_ne_indexError opts o _ 0 [] [] 0
    (by simp only [List.length_map, Nat.zero_add, hlen]; exact h5) hbad

/-- Dict assignment with a fresh key appends the binding. -/
theorem dictInsert_of_not_mem_keys {α : Type} {m : List (String × α)} {k : String}
    (v : α) (h : ∀ x ∈ m, x.1 ≠ k) : dictInsert m k v = m ++ [(k, v)] := by
  have hany : m.any (fun e => e.1 = k) = false := by
    rw [List.any_eq_false]
    intro x hx
    simpa using h x hx
  simp [dictInsert, hany]

/-- A successful greedy pass assigns exactly one slot per player. -/
theorem assignLoop_ok_length (opts : List (String × RoleOptions))
    (ordering : List String) :
    ∀ (ps : List String) (i : Nat) (used : List String)
      (asn : List (String × String × String)) (total T : ℚ)
      (A : List (String × String × String)),
      assignLoop opts ordering ps i used asn total = .ok T A →
      ps.Nodup → (∀ p ∈ ps, ∀ x ∈ asn, x.1 ≠ p) →
      A.length = asn.length + ps.length := by
  intro ps
  induction ps with
  | nil =>
    intro i used asn total T A hrun _ _
    simp only [assignLoop, AssignOutcome.ok.injEq] at hrun
    simp [hrun.2.symm]
  | cons p rest ih =>
    intro i used asn total T A hrun hnd hkeys
    rcases ho : ordering[i]? with _ | role
    · simp only [assignLoop, ho] at hrun
      exact AssignOutcome.noConfusion hrun
    · simp only [assignLoop, ho] at hrun
      rcases hf : ((lookupOptions opts p).get role).find? (heroUnused used) with _ | best
      · rw [hf] at hrun
        exact AssignOutcome.noConfusion hrun
      · rw [hf] at hrun
        have hfresh : ∀ x ∈ asn, x.1 ≠ p := fun x hx => hkeys p (by simp) x hx
        have hins : dictInsert asn p (best.1, role) = asn ++ [(p, best.1, role)] :=
          dictInsert_of_not_mem_keys _ hfresh
        have hlen := ih (i + 1) (best.1 :: used) (dictInsert asn p (best.1, role))
          (total + best.2) T A hrun hnd.of_cons ?_
        · rw [hins] at hlen
          simp only [List.length_append, List.length_cons, List.length_nil] at hlen ⊢
          omega
        · intro q hq x hx
          rw [hins] at hx
          rcases List.mem_append.mp hx with hx2 | hx2
          · exact hkeys q (by simp [hq]) x hx2
          · simp only [List.mem_singleton] at hx2
            subst hx2
            intro hcon
            have hpq : p = q := hcon
            exact (List.nodup_cons.mp hnd).1 (hpq.symm ▸ hq)

/-- Every member of `okCands` comes from a successful greedy pass over
one of the distinct orderings. -/
theorem mem_okCands (players : List PlayerProfile)
    (opts : List (String × RoleOptions)) (t : TargetComp)
    (c : ℚ × List (String × String × String)) (hc : c ∈ okCands players opts t) :
    ∃ o ∈ distinctOrderings t,
      assignLoop opts o (players.map (fun p => p.player_name)) 0 [] [] 0 =
        .ok c.1 c.2 := by
  simp only [okCands, List.mem_filterMap] at hc
  obtain ⟨o, ho, hm⟩ := hc
  rcases hres : assignLoop opts o (players.map (fun p => p.player_name)) 0 [] [] 0
    with _ | _ | ⟨T, A⟩
  · rw [hres] at hm
    simp at hm
  · rw [hres] at hm
    simp at hm
  · rw [hres] at hm
    simp only [Option.some.injEq] at hm
    exact ⟨o, ho, by rw [hres, ← hm]⟩

/-- C10 (amended): the ordering access `role_assignment[i]` stays in
bounds — and `find_best_assignment` is total — whenever there are at
most as many players as template slots (five for every searched
template), and a successful pass assigns exactly one slot per player
(so fewer than five players silently yield under-filled candidates);
with six or more players an out-of-range access occurs only on an
ordering whose first five picks all succeed (see the counterexample). -/
theorem claim_C10 (players : List PlayerProfile)
    (opts : List (String × RoleOptions)) (t : TargetComp)
    (hb : players.length ≤ t.vanguard + t.duelist + t.strategist)
    (hnd : (players.map (fun p => p.player_name)).Nodup) :
    find_best_assignment players opts t = .ok (okCands players opts t) ∧
    ∀ c ∈ okCands players opts t, c.2.length = players.length := by
  refine ⟨find_best_assignment_ok players opts t hb, ?_⟩
  intro c hc
  obtain ⟨o, _, hrun⟩ := mem_okCands players opts t c hc
  have := assignLoop_ok_length opts o (players.map (fun p => p.player_name)) 0
    [] [] 0 c.1 c.2 hrun hnd (by simp)
  simpa using this

/-- Six player profiles with empty hero pools. -/
def sixEmptyPlayers : List PlayerProfile :=
  [{ player_name := "P1" }, { player_name := "P2" }, { player_name := "P3" },
   { player_name := "P4" }, { player_name := "P5" }, { player_name := "P6" }]

set_option maxRecDepth 40000 in
/-- C10 counterexample: a call with six player profiles need not reach
an out-of-range index — with empty hero pools every ordering is
abandoned at the first player, and the search returns no candidates
instead of crashing. -/
theorem claim_C10_counterexample :
    sixEmptyPlayers.length = 6 ∧
    find_best_assignment sixEmptyPlayers (optionsMap sixEmptyPlayers 3) ⟨2, 2, 1⟩ =
      .ok [] :=
  ⟨rfl, rfl⟩

/-- Witness for C10: a one-player call (within the bound, distinct
names) cannot crash. -/
theorem claim_C10_witness :
    find_best_assignment [{ player_name := "Ana" }] [] ⟨2, 2, 1⟩ ≠ .error () := by
  obtain ⟨h1, -⟩ := claim_C10 [{ player_name := "Ana" }] [] ⟨2, 2, 1⟩
    (by decide) (by decide)
  rw [h1]
  simp

/-- Every entry of `dictInsert m k v` is the new binding or an old one. -/
theorem dictInsert_mem {α : Type} {m : List (String × α)} {k : String} {v : α}
    {x : String × α} (hx : x ∈ dictInsert m k v) : x = (k, v) ∨ x ∈ m := by
  simp only [dictInsert] at hx
  split at hx
  · rw [List.mem_map] at hx
    obtain ⟨e, he, hxe⟩ := hx
    by_cases hek : e.1 = k
    · rw [if_pos hek] at hxe
      exact Or.inl hxe.symm
    · rw [if_neg hek] at hxe
      exact Or.inr (hxe ▸ he)
  · rcases List.mem_append.mp hx with h | h
    · exact Or.inr h
    · simp only [List.mem_singleton] at h
      exact Or.inl h

/-- Unfolding of `dictInsert` on a cons cell whose head key, if equal to
the inserted key, does not recur in the tail. -/
theorem dictInsert_cons {α : Type} (e : String × α) (tl : List (String × α))
    (k : String) (v : α) (hfresh : e.1 = k → ∀ x ∈ tl, x.1 ≠ k) :
    dictInsert (e :: tl) k v =
      if e.1 = k then (k, v) :: tl else e :: dictInsert tl k v := by
  by_cases he : e.1 = k
  · have htl := hfresh he
    have hany : (e :: tl).any (fun x => decide (x.1 = k)) = true := by
      simp [he]
    rw [if_pos he]
    simp only [dictInsert, hany, if_true, List.map_cons, if_pos he]
    have hmap : tl.map (fun x => if x.1 = k then (k, v) else x) = tl.map id :=
      List.map_congr_left (fun a ha => by rw [if_neg (htl a ha)]; rfl)
    rw [hmap, List.map_id]
  · rw [if_neg he]
    by_cases ha : tl.any (fun x => decide (x.1 = k)) = true
    · have hany : (e :: tl).any (fun x => decide (x.1 = k)) = true := by
        simp only [List.any_cons, ha, Bool.or_true]
      simp only [dictInsert, hany, ha, if_true, List.map_cons, if_neg he]
    · have hany : (e :: tl).any (fun x => decide (x.1 = k)) = false := by
        rw [List.any_cons, Bool.or_eq_false_iff]
        refine ⟨by simpa using he, ?_⟩
        cases hb2 : tl.any (fun x => decide (x.1 = k)) with
        | true => exact absurd hb2 ha
        | false => rfl
      simp only [dictInsert, hany, ha, Bool.false_eq_true, if_false,
        List.cons_append]

/-- `dictInsert` keeps the key list duplicate-free. -/
theorem dictInsert_keys_nodup {α : Type} {m : List (String × α)} {k : String}
    {v : α} (h : (m.map Prod.fst).Nodup) :
    ((dictInsert m k v).map Prod.fst).Nodup := by
  simp only [dictInsert]
  split
  · have hmap : (m.map (fun e => if e.1 = k then (k, v) else e)).map Prod.fst =
        m.map Prod.fst := by
      rw [List.map_map]
      apply List.map_congr_left
      intro a _
      by_cases hak : a.1 = k
      · simp [hak]
      · simp [hak]
    rw [hmap]
    exact h
  · rename_i hany
    rw [List.map_append]
    refine List.Nodup.append h (List.nodup_singleton k) ?_
    intro a ha hb
    simp only [List.map_cons, List.map_nil, List.mem_singleton] at hb
    subst hb
    rw [List.mem_map] at ha
    obtain ⟨x, hx, hxa⟩ := ha
    rw [List.any_eq_true] at hany
    exact hany ⟨x, hx, by simpa using hxa⟩

/-- Replacing or appending a binding whose hero is globally fresh keeps
the assigned-hero list duplicate-free (keys must be duplicate-free so
only one entry is replaced). -/
theorem dictInsert_heroes_nodup :
    ∀ (asn : List (String × String × String)) (k b r : String),
      (asn.map Prod.fst).Nodup → (asn.map (fun e => e.2.1)).Nodup →
      b ∉ asn.map (fun e => e.2.1) →
      ((dictInsert asn k (b, r)).map (fun e => e.2.1)).Nodup
  | [], k, b, r, _, _, _ => by simp [dictInsert]
  | e :: tl, k, b, r, hk, hh, hb => by
    have hkc := List.nodup_cons.mp hk
    have hhc := List.nodup_cons.mp hh
    rw [dictInsert_cons e tl k (b, r) (fun he x hx hxk =>
      hkc.1 (by rw [he, ← hxk]; exact List.mem_map_of_mem Prod.fst hx))]
    by_cases he : e.1 = k
    · rw [if_pos he]
      simp only [List.map_cons, List.nodup_cons]
      refine ⟨?_, hhc.2⟩
      intro hmem
      exact hb (List.mem_cons_of_mem _ hmem)
    · rw [if_neg he]
      simp only [List.map_cons, List.nodup_cons]
      constructor
      · intro hmem
        rw [List.mem_map] at hmem
        obtain ⟨x, hx, hxe⟩ := hmem
        rcases dictInsert_mem hx with rfl | hxtl
        · have hbe : b = e.2.1 := by simpa using hxe
          exact hb (by simp [hbe])
        · refine absurd ?_ hhc.1
          have hxm : (fun e => e.2.1) x ∈ List.map (fun e => e.2.1) tl :=
            List.mem_map_of_mem _ hxtl
          simpa [hxe] using hxm
      · exact dictInsert_heroes_nodup tl k b r hkc.2 hhc.2
          (fun hmem => hb (List.mem_cons_of_mem _ hmem))

/-- A successful greedy pass never assigns the same hero twice: every
pick is filtered against the used-hero set, which covers all previously
assigned heroes. -/
theorem assignLoop_ok_heroes (opts : List (String × RoleOptions))
    (ordering : List String) :
    ∀ (ps : List String) (i : Nat) (used : List String)
      (asn : List (String × String × String)) (total T : ℚ)
      (A : List (String × String × String)),
      assignLoop opts ordering ps i used asn total = .ok T A →
      (asn.map Prod.fst).Nodup →
      (asn.map (fun e => e.2.1)).Nodup →
      (∀ x ∈ asn.map (fun e => e.2.1), x ∈ used) →
      (A.map (fun e => e.2.1)).Nodup := by
  intro ps
  induction ps with
  | nil =>
    intro i used asn total T A hrun _ hh _
    simp only [assignLoop, AssignOutcome.ok.injEq] at hrun
    rw [← hrun.2]
    exact hh
  | cons p rest ih =>
    intro i used asn total T A hrun hk hh hsub
    rcases ho : ordering[i]? with _ | role
    · simp only [assignLoop, ho] at hrun
      exact AssignOutcome.noConfusion hrun
    · simp only [assignLoop, ho] at hrun
      rcases hf : ((lookupOptions opts p).get role).find? (heroUnused used) with _ | best
      · rw [hf] at hrun
        exact AssignOutcome.noConfusion hrun
      · rw [hf] at hrun
        have hbval := List.find?_some hf
        have hbused : best.1 ∉ used := by
          simpa [heroUnused] using hbval
        have hbheroes : best.1 ∉ asn.map (fun e => e.2.1) :=
          fun hmem => hbused (hsub _ hmem)
        refine ih (i + 1) (best.1 :: used) (dictInsert asn p (best.1, role))
          (total + best.2) T A hrun (dictInsert_keys_nodup hk)
          (dictInsert_heroes_nodup asn p best.1 role hk hh hbheroes) ?_
        intro x hmem
        rw [List.mem_map] at hmem
        obtain ⟨y, hy, hyx⟩ := hmem
        rcases dictInsert_mem hy with rfl | hytl
        · rw [← hyx]
          exact List.mem_cons_self _ _
        · exact List.mem_cons_of_mem _ (hsub x (hyx ▸ List.mem_map_of_mem _ hytl))

/-- An `Except` bind that succeeds factors through a success. -/
theorem except_bind_ok {α β : Type} {x : Except Unit α} {f : α → Except Unit β}
    {r : β} (h : x >>= f = .ok r) : ∃ a, x = .ok a ∧ f a = .ok r := by
  cases x with
  | error e => simp [bind, Except.bind] at h
  | ok a => exact ⟨a, rfl, by simpa [bind, Except.bind] using h⟩

/-- A successful `find_best_assignment` returns exactly `okCands`. -/
theorem fba_ok_inv {players : List PlayerProfile}
    {opts : List (String × RoleOptions)} {t : TargetComp}
    {l : List (ℚ × List (String × String × String))}
    (h : find_best_assignment players opts t = .ok l) :
    l = okCands players opts t := by
  unfold find_best_assignment at h
  split at h
  · exact absurd h (by simp)
  · injection h with h2
    exact h2.symm

/-- Every element produced by the template fold of
`find_optimal_compositions` comes from the accumulator or from one
successful template search. -/
theorem foldlM_mem (players : List PlayerProfile)
    (opts : List (String × RoleOptions)) :
    ∀ (ts : List TargetComp)
      (acc res : List (ℚ × List (String × String × String))),
      List.foldlM (fun acc2 t => do
        let comp_results ← find_best_assignment players opts t
        pure (acc2 ++ comp_results)) acc ts = Except.ok res →
      ∀ c ∈ res, c ∈ acc ∨ ∃ t l, find_best_assignment players opts t = .ok l ∧ c ∈ l := by
  intro ts
  induction ts with
  | nil =>
    intro acc res h c hc
    simp only [List.foldlM_nil] at h
    have : acc = res := by simpa [pure, Except.pure] using h
    exact Or.inl (this ▸ hc)
  | cons t ts ih =>
    intro acc res h c hc
    rw [List.foldlM_cons] at h
    rcases hfa : find_best_assignment players opts t with e | l
    · rw [hfa] at h
      simp [bind, Except.bind] at h
    · rw [hfa] at h
      simp only [bind, Except.bind, pure, Except.pure] at h
      rcases ih (acc ++ l) res h c hc with hmem | hex
      · rcases List.mem_append.mp hmem with h1 | h2
        · exact Or.inl h1
        · exact Or.inr ⟨t, l, hfa, h2⟩
      · exact Or.inr hex

/-- C4: no candidate produced by the composition search — hence no
element of a successful `find_optimal_compositions` result — assigns the
same hero identity to two different players. -/
theorem claim_C4 (players : List PlayerProfile) (min_games top_n : Nat)
    (rs : List (ℚ × List (String × String × String)))
    (c : ℚ × List (String × String × String))
    (hok : find_optimal_compositions players min_games top_n = .ok rs)
    (hc : c ∈ rs) :
    (c.2.map (fun e => e.2.1)).Nodup := by
  unfold find_optimal_compositions at hok
  obtain ⟨comps, hfold, hpure⟩ := except_bind_ok hok
  have hrs : rs = (comps.insertionSort candDesc).take top_n := by
    have := hpure
    simp only [pure, Except.pure, Except.ok.injEq] at this
    exact this.symm
  have hc2 : c ∈ comps := by
    rw [hrs] at hc
    exact (List.mem_insertionSort candDesc).mp (List.mem_of_mem_take hc)
  rcases foldlM_mem players (optionsMap players min_games) target_comps [] comps
      hfold c hc2 with habs | hex
  · exact absurd habs (List.not_mem_nil c)
  · obtain ⟨t, l, hfa, hcl⟩ := hex
    rw [fba_ok_inv hfa] at hcl
    obtain ⟨o, _, hrun⟩ := mem_okCands players (optionsMap players min_games) t c hcl
    exact assignLoop_ok_heroes (optionsMap players min_games) o
      (players.map (fun p => p.player_name)) 0 [] [] 0 c.1 c.2 hrun
      (by simp) (by simp) (by simp)

set_option maxRecDepth 100000 in
/-- Witness for C4: the degenerate empty squad produces five (trivially
duplicate-free) empty candidates. -/
theorem claim_C4_witness :
    ((((0 : ℚ), ([] : List (String × String × String))).2.map
      (fun e => e.2.1)).Nodup) :=
  claim_C4 [] 3 5 (List.replicate 5 ((0 : ℚ), [])) ((0 : ℚ), []) (by rfl)
    (by decide)

/-- C2: with at most five player profiles, `find_optimal_compositions`
returns exactly the first `top_n` elements (default 5) of all five
templates' valid candidates pooled and stably sorted descending by total
score; in particular when no ordering of any template yields a valid
candidate it returns the empty list rather than failing. -/
theorem claim_C2 (players : List PlayerProfile) (min_games top_n : Nat)
    (h5 : players.length ≤ 5) :
    find_optimal_compositions players min_games top_n =
      .ok (((candidatePool players min_games).insertionSort candDesc).take top_n) ∧
    (candidatePool players min_games = [] →
      find_optimal_compositions players min_games top_n = .ok []) ∧
    find_optimal_compositions players min_games =
      find_optimal_compositions players min_games 5 := by
  have hmain : find_optimal_compositions players min_games top_n =
      .ok (((candidatePool players min_games).insertionSort candDesc).take top_n) := by
    simp only [find_optimal_compositions, target_comps, List.foldlM, bind,
      Except.bind,
      find_best_assignment_ok players (optionsMap players min_games) ⟨2, 2, 1⟩
        (by simpa using h5),
      find_best_assignment_ok players (optionsMap players min_games) ⟨1, 2, 2⟩
        (by simpa using h5),
      find_best_assignment_ok players (optionsMap players min_games) ⟨2, 1, 2⟩
        (by simpa using h5),
      find_best_assignment_ok players (optionsMap players min_games) ⟨1, 3, 1⟩
        (by simpa using h5),
      pure, Except.pure, candidatePool, List.nil_append, List.append_assoc]
  refine ⟨hmain, ?_, rfl⟩
  intro hempty
  rw [hmain, hempty]
  simp

/-- C9: exactly five templates are evaluated, the third and fifth are
identical, only four distinct distributions exist, and each candidate's
multiplicity in the pre-sort pool counts the duplicated
`(2 Vanguard, 1 Duelist, 2 Strategist)` template twice — identical
candidates are never deduplicated. -/
theorem claim_C9 :
    target_comps.length = 5 ∧
    target_comps[2] = target_comps[4] ∧
    target_comps.dedup.length = 4 ∧
    ∀ (players : List PlayerProfile) (min_games : Nat)
      (c : ℚ × List (String × String × String)),
      (candidatePool players min_games).count c =
        (okCands players (optionsMap players min_games) ⟨2, 2, 1⟩).count c +
          (okCands players (optionsMap players min_games) ⟨1, 2, 2⟩).count c +
          (okCands players (optionsMap players min_games) ⟨1, 3, 1⟩).count c +
          2 * (okCands players (optionsMap players min_games) ⟨2, 1, 2⟩).count c := by
  refine ⟨rfl, rfl, by decide, ?_⟩
  intro players min_games c
  simp only [candidatePool, List.count_append]
  ring

/-- Witness for C2: a one-profile squad is within the bound, and the
result is the sorted pool truncated to the default five entries. -/
theorem claim_C2_witness :
    find_optimal_compositions [{ player_name := "Ana" }] 3 5 =
      .ok (((candidatePool [{ player_name := "Ana" }] 3).insertionSort
        candDesc).take 5) :=
  (claim_C2 [{ player_name := "Ana" }] 3 5 (by decide)).1

/-- Modelled from the spec's words (§4.4 steps 3-5): visit the
`(player, assigned role)` pairs in order; for each, pick the first-listed
hero of that player's role options not used by an earlier player; if a
player has no such hero the whole ordering yields nothing; otherwise
return the complete pick list `(player, role, hero, score)`. -/
def specGreedy (opts : List (String × RoleOptions)) :
    List (String × String) → List String →
      Option (List (String × String × String × ℚ))
  | [], _ => some []
  | (p, r) :: rest, used =>
    match ((lookupOptions opts p).get r).find? (heroUnused used) with
    | none => none
    | some best =>
      match specGreedy opts rest (best.1 :: used) with
      | none => none
      | some picks => some ((p, r, best.1, best.2) :: picks)

/-- C3: the code's indexed greedy loop refines the spec's description —
players are visited in the fixed enumeration order with
`ordering[i]` as their role, each gets the first option not used
earlier, a miss aborts the whole ordering with no partial result, and a
successful ordering's total score is the sum of the picked options'
scores. -/
theorem claim_C3 (opts : List (String × RoleOptions)) (ordering : List String)
    (ps : List String) (i : Nat) (used : List String)
    (asn : List (String × String × String)) (total : ℚ)
    (hb : i + ps.length ≤ ordering.length) :
    assignLoop opts ordering ps i used asn total =
      match specGreedy opts (ps.zip (ordering.drop i)) used with
      | none => AssignOutcome.invalid
      | some picks =>
          AssignOutcome.ok (total + (picks.map (fun x => x.2.2.2)).sum)
            (picks.foldl (fun a x => dictInsert a x.1 (x.2.2.1, x.2.1)) asn) := by
  induction ps generalizing i used asn total with
  | nil =>
    simp [assignLoop, specGreedy]
  | cons p rest ih =>
    have hi : i < ordering.length := by
      simp only [List.length_cons] at hb; omega
    have hdrop : ordering.drop i = ordering[i] :: ordering.drop (i + 1) :=
      List.drop_eq_getElem_cons hi
    have hord : ordering[i]? = some (ordering[i]) := List.getElem?_eq_getElem hi
    rw [hdrop]
    simp only [List.zip_cons_cons]
    rcases hf : ((lookupOptions opts p).get (ordering[i])).find? (heroUnused used)
      with _ | best
    · simp only [assignLoop, hord, hf, specGreedy]
    · simp only [assignLoop, hord, hf, specGreedy]
      rw [ih (i + 1) (best.1 :: used) (dictInsert asn p (best.1, ordering[i]))
        (total + best.2) (by simp only [List.length_cons] at hb; omega)]
      rcases hg : specGreedy opts (rest.zip (ordering.drop (i + 1)))
          (best.1 :: used) with _ | picks
      · simp [hg]
      · simp only [hg, List.map_cons, List.sum_cons, List.foldl_cons]
        congr 1
        ring

/-- Witness for C3: the refinement instantiated at a one-player,
one-slot ordering. -/
theorem claim_C3_witness :
    assignLoop [] ["Vanguard"] ["Ana"] 0 [] [] 0 =
      match specGreedy [] (["Ana"].zip ((["Vanguard"] : List String).drop 0)) [] with
      | none => AssignOutcome.invalid
      | some picks =>
          AssignOutcome.ok (0 + (picks.map (fun x => x.2.2.2)).sum)
            (picks.foldl (fun a x => dictInsert a x.1 (x.2.2.1, x.2.1)) []) :=
  claim_C3 [] ["Vanguard"] ["Ana"] 0 [] [] 0 (by decide)

/-- Looking up any key after inserting it finds the inserted value, with
or without duplicate keys. -/
theorem find?_dictInsert {α : Type} (m : List (String × α)) (k : String) (v : α) :
    (dictInsert m k v).find? (fun e => e.1 = k) = some (k, v) := by
  induction m with
  | nil => simp [dictInsert]
  | cons e tl ih =>
    by_cases he : e.1 = k
    · have hany : (e :: tl).any (fun x => decide (x.1 = k)) = true := by simp [he]
      simp only [dictInsert, hany, if_true, List.map_cons, if_pos he]
      simp [List.find?]
    · by_cases ha : tl.any (fun x => decide (x.1 = k)) = true
      · have hany : (e :: tl).any (fun x => decide (x.1 = k)) = true := by
          simp only [List.any_cons, ha, Bool.or_true]
        simp only [dictInsert, hany, if_true, List.map_cons, if_neg he]
        rw [List.find?_cons_of_neg _ (by simpa using he)]
        have hins : dictInsert tl k v =
            tl.map (fun e => if e.1 = k then (k, v) else e) := by
          simp [dictInsert, ha]
        rw [← hins]
        exact ih
      · have hany : (e :: tl).any (fun x => decide (x.1 = k)) = false := by
          rw [List.any_cons, Bool.or_eq_false_iff]
          refine ⟨by simpa using he, ?_⟩
          cases hb2 : tl.any (fun x => decide (x.1 = k)) with
          | true => exact absurd hb2 ha
          | false => rfl
        simp only [dictInsert, hany, Bool.false_eq_true, if_false, List.cons_append]
        rw [List.find?_cons_of_neg _ (by simpa using he)]
        have hins : dictInsert tl k v = tl ++ [(k, v)] := by
          simp only [dictInsert]
          rw [if_neg]
          simp [ha]
        rw [← hins]
        exact ih

/-- `profile.hero_stats[name]` as an optional lookup. -/
def lookupStats (p : PlayerProfile) (n : String) : Option HeroStats :=
  (p.hero_stats.find? (fun e => e.1 = n)).map (fun e => e.2)

/-- A segment reaching the aggregation step with a nameless first hero
entry. -/
def namelessHeroSeg : MatchSegment :=
  { segType := "overview", platformUserHandle := some "Ana",
    heroes := [{ name := none }], result := "win", isMvp := false,
    isSvp := false, kills := 1, deaths := 2, assists := 3,
    totalHeroDamage := 0, totalHeroHeal := 0, totalDamageTaken := 0,
    timePlayed := 0 }

/-- A segment whose `heroes` list is empty (hero identity entirely
missing). -/
def emptyHeroesSeg : MatchSegment :=
  { segType := "overview", platformUserHandle := some "Ana", heroes := [],
    result := "win", isMvp := false, isSvp := false, kills := 0, deaths := 0,
    assists := 0, totalHeroDamage := 0, totalHeroHeal := 0,
    totalDamageTaken := 0, timePlayed := 0 }

/-- A segment with an empty `heroes` list is skipped by the aggregation
loop. -/
theorem applySegment_empty_heroes (actual : String) (p : PlayerProfile)
    (s : MatchSegment) (h : s.heroes = []) : applySegment actual p s = p := by
  unfold applySegment
  split
  · rfl
  · split
    · rfl
    · rw [h]

/-- C7 counterexample: a match segment whose hero identity is missing
because the `heroes` array is empty is dropped entirely — nothing is
aggregated under "Unknown" and the record does not contribute to the
player's totals. -/
theorem claim_C7_counterexample :
    (extract_player_stats [[emptyHeroesSeg]] "Ana").hero_stats = [] ∧
    (extract_player_stats [[emptyHeroesSeg]] "Ana").total_games = 0 := by
  have hs : extract_player_stats [[emptyHeroesSeg]] "Ana" =
      { player_name := findActualName "Ana" [[emptyHeroesSeg]] } := by
    unfold extract_player_stats
    simp only [List.foldl_cons, List.foldl_nil]
    exact applySegment_empty_heroes _ _ _ rfl
  rw [hs]
  exact ⟨rfl, rfl⟩

/-- C7 (amended): a segment that reaches the aggregation step (overview
type, matching player) with a nonempty `heroes` array whose first entry
has no parseable name is aggregated under hero identity "Unknown" with
role "Unknown" and still contributes to the player's totals; a segment
with an empty `heroes` array, by contrast, is skipped (see the
counterexample). -/
theorem claim_C7 (actual : String) (p : PlayerProfile) (s : MatchSegment)
    (h0 : HeroEntry) (rest : List HeroEntry)
    (htype : s.segType = "overview")
    (hmatch : segMatchesPlayer actual s = true)
    (hheroes : s.heroes = h0 :: rest)
    (hname : h0.name = none)
    (hinv : ∀ e ∈ p.hero_stats, e.1 = "Unknown" → e.2.role = "Unknown") :
    (applySegment actual p s).total_games = p.total_games + 1 ∧
    ((lookupStats (applySegment actual p s) "Unknown").map HeroStats.games_played) =
      some ((((lookupStats p "Unknown").map HeroStats.games_played).getD 0) + 1) ∧
    ((lookupStats (applySegment actual p s) "Unknown").map HeroStats.role) =
      some "Unknown" := by
  have hrole : heroRole "Unknown" = "Unknown" := by decide
  have happ : applySegment actual p s =
      { p with
        hero_stats := dictInsert p.hero_stats "Unknown"
          (updateHeroStats
            (match p.hero_stats.find? (fun e => e.1 = "Unknown") with
             | some e => e.2
             | none => { hero_name := "Unknown", role := "Unknown" })
            s (s.result.toLower = "win"))
        total_games := p.total_games + 1
        total_wins := p.total_wins +
          (if s.result.toLower = "win" then 1 else 0) } := by
    unfold applySegment
    rw [if_neg (by simp [htype]), if_neg (by simp [hmatch]), hheroes]
    simp only [hname, Option.getD_none, hrole]
  rw [happ]
  refine ⟨rfl, ?_, ?_⟩
  · simp only [lookupStats, find?_dictInsert, Option.map_some, updateHeroStats]
    rcases hfind : p.hero_stats.find? (fun e => e.1 = "Unknown") with _ | e
    · rw [hfind]
      simp
    · rw [hfind]
      simp
  · simp only [lookupStats, find?_dictInsert, Option.map_some, updateHeroStats]
    rcases hfind : p.hero_stats.find? (fun e => e.1 = "Unknown") with _ | e
    · rw [hfind]
      simp
    · have hekey : e.1 = "Unknown" := by
        have := List.find?_some hfind
        simpa using this
      have hemem : e ∈ p.hero_stats := List.mem_of_find?_eq_some hfind
      rw [hfind]
      simp [hinv e hemem hekey]

/-- Witness for C7: one nameless-hero segment on a fresh profile is
counted once. -/
theorem claim_C7_witness :
    (applySegment "Ana" { player_name := "Ana" } namelessHeroSeg).total_games =
      0 + 1 :=
  (claim_C7 "Ana" { player_name := "Ana" } namelessHeroSeg { name := none } []
    rfl (by simp [segMatchesPlayer, namelessHeroSeg]) rfl rfl (by simp)).1

instance : IsTotal (String × HeroStats) scoreDesc :=
  ⟨fun a b => le_total b.2.performance_score a.2.performance_score⟩

instance : IsTrans (String × HeroStats) scoreDesc :=
  ⟨fun _ _ _ h1 h2 => le_trans h2 h1⟩

/-- In an association list with duplicate-free keys, a key determines
its value. -/
theorem assoc_unique {l : List (String × HeroStats)}
    (h : (l.map Prod.fst).Nodup) {n : String} {a b : HeroStats}
    (ha : (n, a) ∈ l) (hb : (n, b) ∈ l) : a = b := by
  induction l with
  | nil => cases ha
  | cons e tl ih =>
    rw [List.map_cons, List.nodup_cons] at h
    rcases List.mem_cons.mp ha with ha1 | ha2
    · rcases List.mem_cons.mp hb with hb1 | hb2
      · exact (Prod.ext_iff.mp (ha1.trans hb1.symm)).2
      · exfalso
        apply h.1
        rw [← ha1]
        simpa using List.mem_map_of_mem Prod.fst hb2
    · rcases List.mem_cons.mp hb with hb1 | hb2
      · exfalso
        apply h.1
        rw [← hb1]
        simpa using List.mem_map_of_mem Prod.fst ha2
      · exact ih h.2 ha2 hb2

/-- Adding a top hero whose role differs from `r` leaves role `r`'s
option list unchanged. -/
theorem addTopHero_get_other (o : RoleOptions) (e : String × HeroStats)
    (r : String) (hr : r = "Vanguard" ∨ r = "Duelist" ∨ r = "Strategist")
    (hne : e.2.role ≠ r) :
    (addTopHero o e).get r = o.get r := by
  rcases hr with rfl | rfl | rfl <;>
    (simp only [addTopHero, RoleOptions.get]; split_ifs <;> simp_all)

/-- Adding a top hero of role `r` appends its pair to role `r`'s option
list unless the pair is already present. -/
theorem addTopHero_get_same (o : RoleOptions) (e : String × HeroStats)
    (r : String) (hr : r = "Vanguard" ∨ r = "Duelist" ∨ r = "Strategist")
    (he : e.2.role = r) :
    (addTopHero o e).get r =
      if (e.1, e.2.performance_score) ∈ o.get r then o.get r
      else o.get r ++ [(e.1, e.2.performance_score)] := by
  rcases hr with rfl | rfl | rfl <;>
    (simp only [addTopHero, RoleOptions.get, he]; split_ifs <;> simp_all)

/-- The whole top-hero loop appends, in order, the pairs of the
top-listed heroes of role `r` that are not already listed, as long as no
hero name repeats in the traversed list. -/
theorem foldl_addTopHero_get (r : String)
    (hr : r = "Vanguard" ∨ r = "Duelist" ∨ r = "Strategist") :
    ∀ (L : List (String × HeroStats)) (o : RoleOptions),
      (L.map Prod.fst).Nodup →
      (L.foldl addTopHero o).get r =
        o.get r ++ (L.filter (fun e =>
          decide (e.2.role = r ∧
            (e.1, e.2.performance_score) ∉ o.get r))).map
          (fun e => (e.1, e.2.performance_score)) := by
  intro L
  induction L with
  | nil =>
    intro o _
    simp
  | cons e L ih =>
    intro o hnd
    rw [List.map_cons, List.nodup_cons] at hnd
    rw [List.foldl_cons, ih (addTopHero o e) hnd.2]
    by_cases hrole : e.2.role = r
    · rw [addTopHero_get_same o e r hr hrole]
      by_cases hmem : (e.1, e.2.performance_score) ∈ o.get r
      · rw [if_pos hmem, List.filter_cons, if_neg (by simp [hrole, hmem])]
      · rw [if_neg hmem, List.filter_cons, if_pos (by simp [hrole, hmem]),
          List.map_cons, List.append_assoc, List.singleton_append]
        have hfc : ∀ x ∈ L,
            (decide (x.2.role = r ∧ (x.1, x.2.performance_score) ∉
              o.get r ++ [(e.1, e.2.performance_score)])) =
            (decide (x.2.role = r ∧ (x.1, x.2.performance_score) ∉ o.get r)) := by
          intro x hx
          have hxe : x.1 ≠ e.1 :=
            fun hcon => hnd.1 (hcon ▸ List.mem_map_of_mem Prod.fst hx)
          rw [decide_eq_decide]
          constructor
          · rintro ⟨h1, h2⟩
            exact ⟨h1, fun hin => h2 (List.mem_append_left _ hin)⟩
          · rintro ⟨h1, h2⟩
            refine ⟨h1, fun hin => ?_⟩
            rcases List.mem_append.mp hin with hin2 | hin2
            · exact h2 hin2
            · simp only [List.mem_singleton, Prod.mk.injEq] at hin2
              exact hxe hin2.1
        rw [List.filter_congr hfc]
    · rw [addTopHero_get_other o e r hr hrole, List.filter_cons,
        if_neg (by simp [hrole])]

/-- The option list of a known role, in closed form: the top-3 seed
followed by the qualifying global top-5 heroes of that role whose pairs
are not already seeded. -/
theorem buildPlayerOptions_get_eq (p : PlayerProfile) (min_games : Nat)
    (r : String) (hr : r = "Vanguard" ∨ r = "Duelist" ∨ r = "Strategist")
    (hT5 : ((p.get_top_heroes 5 min_games).map Prod.fst).Nodup) :
    (buildPlayerOptions p min_games).get r =
      top3Options p min_games r ++
        ((p.get_top_heroes 5 min_games).filter (fun e =>
          decide (e.2.role = r ∧
            (e.1, e.2.performance_score) ∉ top3Options p min_games r))).map
          (fun e => (e.1, e.2.performance_score)) := by
  unfold buildPlayerOptions
  rw [foldl_addTopHero_get r hr _ _ hT5]
  have hinit : (RoleOptions.mk (top3Options p min_games "Vanguard")
      (top3Options p min_games "Duelist")
      (top3Options p min_games "Strategist")).get r =
      top3Options p min_games r := by
    rcases hr with rfl | rfl | rfl <;> simp [RoleOptions.get]
  rw [hinit]

/-- Keys stay duplicate-free through the role filter and sort. -/
theorem get_best_heroes_keys_nodup (p : PlayerProfile) (r : String)
    (min_games : Nat) (hnd : (p.hero_stats.map Prod.fst).Nodup) :
    ((p.get_best_heroes_by_role r min_games).map Prod.fst).Nodup := by
  unfold PlayerProfile.get_best_heroes_by_role
  refine (((List.perm_insertionSort scoreDesc _).map Prod.fst).symm).nodup ?_
  exact List.Nodup.sublist ((List.filter_sublist _).map Prod.fst) hnd

/-- Keys stay duplicate-free through the global filter, sort and take. -/
theorem get_top_heroes_keys_nodup (p : PlayerProfile) (n min_games : Nat)
    (hnd : (p.hero_stats.map Prod.fst).Nodup) :
    ((p.get_top_heroes n min_games).map Prod.fst).Nodup := by
  unfold PlayerProfile.get_top_heroes
  rw [List.map_take]
  refine List.Nodup.sublist (List.take_sublist _ _) ?_
  refine (((List.perm_insertionSort scoreDesc _).map Prod.fst).symm).nodup ?_
  exact List.Nodup.sublist ((List.filter_sublist _).map Prod.fst) hnd

/-- The per-role query is sorted descending by performance score. -/
theorem get_best_heroes_sorted (p : PlayerProfile) (r : String)
    (min_games : Nat) :
    (p.get_best_heroes_by_role r min_games).Pairwise scoreDesc := by
  unfold PlayerProfile.get_best_heroes_by_role
  exact List.sorted_insertionSort scoreDesc _

/-- The global top query is sorted descending by performance score. -/
theorem get_top_heroes_sorted (p : PlayerProfile) (n min_games : Nat) :
    (p.get_top_heroes n min_games).Pairwise scoreDesc := by
  unfold PlayerProfile.get_top_heroes
  exact List.Pairwise.sublist (List.take_sublist _ _)
    (List.sorted_insertionSort scoreDesc _)

/-- Membership in the per-role query. -/
theorem mem_get_best_heroes {p : PlayerProfile} {r : String} {min_games : Nat}
    {x : String × HeroStats} :
    x ∈ p.get_best_heroes_by_role r min_games ↔
      x ∈ p.hero_stats ∧ x.2.role = r ∧ min_games ≤ x.2.games_played := by
  unfold PlayerProfile.get_best_heroes_by_role
  rw [List.mem_insertionSort, List.mem_filter]
  simp

/-- The global top query only returns qualifying entries of the pool. -/
theorem mem_get_top_heroes_sub {p : PlayerProfile} {n min_games : Nat}
    {x : String × HeroStats} (hx : x ∈ p.get_top_heroes n min_games) :
    x ∈ p.hero_stats ∧ min_games ≤ x.2.games_played := by
  unfold PlayerProfile.get_top_heroes at hx
  have h2 := List.mem_of_mem_take hx
  rw [List.mem_insertionSort, List.mem_filter] at h2
  simpa using h2

/-- Membership in the top-3 seed pairs. -/
theorem mem_top3Options {p : PlayerProfile} {min_games : Nat} {r : String}
    {n : String} {s : ℚ} :
    (n, s) ∈ top3Options p min_games r ↔
      ∃ st, (n, st) ∈ (p.get_best_heroes_by_role r min_games).take 3 ∧
        s = st.performance_score := by
  unfold top3Options
  rw [List.mem_map]
  constructor
  · rintro ⟨e, he, heq2⟩
    refine ⟨e.2, ?_, (Prod.ext_iff.mp heq2).2.symm⟩
    have h1 : e.1 = n := (Prod.ext_iff.mp heq2).1
    rw [← h1]
    exact he
  · rintro ⟨st, hst, rfl⟩
    exact ⟨(n, st), hst, rfl⟩

/-- C5: for each player with a duplicate-free hero pool and each known
role, the option list is exactly the player's top-3 qualifying heroes of
that role together with the qualifying heroes of that role from the
player's global top-5 (as (hero, score) pairs), with no hero listed
twice, ordered descending by performance score. -/
theorem claim_C5 (p : PlayerProfile) (r : String) (min_games : Nat)
    (hnd : (p.hero_stats.map Prod.fst).Nodup)
    (hr : r = "Vanguard" ∨ r = "Duelist" ∨ r = "Strategist") :
    ((buildPlayerOptions p min_games).get r).Pairwise (fun a b => b.2 ≤ a.2) ∧
    (((buildPlayerOptions p min_games).get r).map Prod.fst).Nodup ∧
    (∀ n s, (n, s) ∈ (buildPlayerOptions p min_games).get r ↔
      ((∃ st, (n, st) ∈ (p.get_best_heroes_by_role r min_games).take 3 ∧
          s = st.performance_score) ∨
       (∃ st, (n, st) ∈ p.get_top_heroes 5 min_games ∧ st.role = r ∧
          s = st.performance_score))) := by
  have hT5nd := get_top_heroes_keys_nodup p 5 min_games hnd
  have heq := buildPlayerOptions_get_eq p min_games r hr hT5nd
  have hsortbhr := get_best_heroes_sorted p r min_games
  have hsortT5 := get_top_heroes_sorted p 5 min_games
  refine ⟨?_, ?_, ?_⟩
  · -- sortedness
    rw [heq, List.pairwise_append]
    refine ⟨?_, ?_, ?_⟩
    · unfold top3Options
      rw [List.pairwise_map]
      exact List.Pairwise.sublist (List.take_sublist _ _) hsortbhr
    · rw [List.pairwise_map]
      exact List.Pairwise.sublist (List.filter_sublist _) hsortT5
    · intro a haA b hbF
      obtain ⟨st, hta, hsa⟩ := mem_top3Options.mp haA
      rw [List.mem_map] at hbF
      obtain ⟨e, heF, hpe⟩ := hbF
      rw [List.mem_filter, decide_eq_true_eq] at heF
      obtain ⟨heT5, herole, hepair⟩ := heF
      have hebhr : e ∈ p.get_best_heroes_by_role r min_games :=
        mem_get_best_heroes.mpr
          ⟨(mem_get_top_heroes_sub heT5).1, herole, (mem_get_top_heroes_sub heT5).2⟩
      rw [← List.take_append_drop 3 (p.get_best_heroes_by_role r min_games)]
        at hebhr
      rcases List.mem_append.mp hebhr with hetake | hedrop
      · exact absurd (List.mem_map_of_mem _ hetake) hepair
      · have hsplit := hsortbhr
        rw [← List.take_append_drop 3 (p.get_best_heroes_by_role r min_games)]
          at hsplit
        obtain ⟨-, -, hcross⟩ := List.pairwise_append.mp hsplit
        have hle : scoreDesc (a.1, st) e := hcross (a.1, st) hta e hedrop
        have hb2 : b.2 = e.2.performance_score := (Prod.ext_iff.mp hpe.symm).2
        rw [hb2, hsa]
        exact hle
  · -- no hero listed twice
    rw [heq, List.map_append]
    refine List.Nodup.append ?_ ?_ ?_
    · unfold top3Options
      rw [List.map_map]
      have hc : (((p.get_best_heroes_by_role r min_games).take 3).map
          (Prod.fst ∘ fun e => (e.1, e.2.performance_score))) =
          (((p.get_best_heroes_by_role r min_games).take 3).map Prod.fst) :=
        List.map_congr_left (fun a _ => rfl)
      rw [hc, List.map_take]
      exact List.Nodup.sublist (List.take_sublist _ _)
        (get_best_heroes_keys_nodup p r min_games hnd)
    · rw [List.map_map]
      have hc : (((p.get_top_heroes 5 min_games).filter (fun e =>
          decide (e.2.role = r ∧
            (e.1, e.2.performance_score) ∉ top3Options p min_games r))).map
          (Prod.fst ∘ fun e => (e.1, e.2.performance_score))) =
          (((p.get_top_heroes 5 min_games).filter (fun e =>
          decide (e.2.role = r ∧
            (e.1, e.2.performance_score) ∉ top3Options p min_games r))).map
            Prod.fst) :=
        List.map_congr_left (fun a _ => rfl)
      rw [hc]
      exact List.Nodup.sublist ((List.filter_sublist _).map Prod.fst) hT5nd
    · intro a haA haF
      rw [List.mem_map] at haA
      obtain ⟨pr, hprA, hpra⟩ := haA
      rw [List.map_map, List.mem_map] at haF
      obtain ⟨e, heF, hea⟩ := haF
      rw [List.mem_filter, decide_eq_true_eq] at heF
      obtain ⟨heT5, herole, hepair⟩ := heF
      obtain ⟨st, hta, hsa⟩ := mem_top3Options.mp
        (show (pr.1, pr.2) ∈ top3Options p min_games r from hprA)
      have hname : e.1 = pr.1 := by
        have : (Prod.fst ∘ fun e : String × HeroStats =>
            (e.1, e.2.performance_score)) e = e.1 := rfl
        rw [this] at hea
        rw [hea, hpra]
      have hmem1 : (pr.1, st) ∈ p.hero_stats :=
        (mem_get_best_heroes.mp (List.mem_of_mem_take hta)).1
      have hmem2 : (pr.1, e.2) ∈ p.hero_stats := by
        rw [← hname]
        exact (mem_get_top_heroes_sub heT5).1
      have hst : st = e.2 := assoc_unique hnd hmem1 hmem2
      apply hepair
      have hpairA : (pr.1, st.performance_score) ∈ top3Options p min_games r :=
        mem_top3Options.mpr ⟨st, hta, rfl⟩
      rw [hst, ← hname] at hpairA
      exact hpairA
  · -- exact membership
    intro n s
    rw [heq, List.mem_append, mem_top3Options]
    constructor
    · rintro (hA | hF)
      · exact Or.inl hA
      · right
        rw [List.mem_map] at hF
        obtain ⟨e, heF, heq2⟩ := hF
        rw [List.mem_filter, decide_eq_true_eq] at heF
        obtain ⟨heT5, herole, -⟩ := heF
        have h1 : e.1 = n := (Prod.ext_iff.mp heq2).1
        refine ⟨e.2, ?_, herole, (Prod.ext_iff.mp heq2).2.symm⟩
        rw [← h1]
        exact heT5
    · rintro (⟨st, hst, rfl⟩ | ⟨st, hstT5, hrole, rfl⟩)
      · exact Or.inl ⟨st, hst, rfl⟩
      · by_cases hin : (n, st.performance_score) ∈ top3Options p min_games r
        · exact Or.inl (mem_top3Options.mp hin)
        · right
          rw [List.mem_map]
          refine ⟨(n, st), ?_, rfl⟩
          rw [List.mem_filter, decide_eq_true_eq]
          exact ⟨hstT5, hrole, hin⟩

/-- A small two-hero profile with distinct hero keys. -/
def twoHeroProfile : PlayerProfile :=
  { player_name := "Ana",
    hero_stats :=
      [("Groot", { hero_name := "Groot", role := "Vanguard", games_played := 5 }),
       ("Hela", { hero_name := "Hela", role := "Duelist", games_played := 4 })],
    total_games := 9, total_wins := 5 }

/-- Witness for C5: the Vanguard option list of the two-hero profile
never lists a hero twice. -/
theorem claim_C5_witness :
    (((buildPlayerOptions twoHeroProfile 1).get "Vanguard").map Prod.fst).Nodup :=
  (claim_C5 twoHeroProfile "Vanguard" 1 (by decide) (Or.inl rfl)).2.1

/-- A `HeroStats` value with `games_played = 0` but nonzero play time and
damage: a counterexample to the unconditional form of C8. -/
def zeroGamesStats : HeroStats :=
  { hero_name := "Hela", role := "Duelist", total_damage := 100,
    total_time_played_ms := 60000 }

/-- C8 counterexample: `games_played = 0` does not force the per-minute
rates to be `0`; with one minute of recorded time and 100 damage the
damage rate is `100`. -/
theorem claim_C8_counterexample :
    zeroGamesStats.games_played = 0 ∧ zeroGamesStats.avg_damage_per_min = 100 := by
  refine ⟨rfl, ?_⟩
  show (if (0:ℚ) < (60000:ℚ) / 60000 then (100:ℚ) / ((60000:ℚ) / 60000) else 0) = 100
  norm_num

/-- C8 (amended): for every `HeroStats` with `games_played = 0` the win
rate is `0` and the KDA is `(kills + assists) / max(deaths, 1)` with a
positive denominator; the three per-minute rates are `0` provided the
recorded play time is also `0` (as it is for every freshly created
aggregate); no rate computation divides by zero. -/
theorem claim_C8 (h : HeroStats) (hg : h.games_played = 0)
    (ht : h.total_time_played_ms = 0) :
    h.win_rate = 0 ∧
    h.kda = ((h.total_kills : ℚ) + (h.total_assists : ℚ)) /
      ((max h.total_deaths 1 : Nat) : ℚ) ∧
    0 < ((max h.total_deaths 1 : Nat) : ℚ) ∧
    h.avg_damage_per_min = 0 ∧ h.avg_healing_per_min = 0 ∧
    h.avg_blocked_per_min = 0 := by
  refine ⟨?_, rfl, ?_, ?_, ?_, ?_⟩
  · simp [HeroStats.win_rate, hg]
  · have hpos : 0 < max h.total_deaths 1 := by omega
    exact_mod_cast hpos
  · simp [HeroStats.avg_damage_per_min, ht]
  · simp [HeroStats.avg_healing_per_min, ht]
  · simp [HeroStats.avg_blocked_per_min, ht]

/-- Witness for C8: the all-zero aggregate satisfies the hypotheses, and
in particular its win rate is `0`. -/
theorem claim_C8_witness :
    ({ hero_name := "Hela", role := "Duelist" } : HeroStats).win_rate = 0 :=
  (claim_C8 { hero_name := "Hela", role := "Duelist" } rfl rfl).1

end Rivals
